import Mathlib

/-!
Shallow embedding of the loveads interactive-canvas core.

The embedding follows the TypeScript sources:
a Konva-based canvas component with an action history
(types CanvasObject, ActionType; functions executeAction, undo, redo,
handleWheel, performGridSnap, handleTransformEnd, the paste branch of
handleKeyDown), a second react-konva canvas and a DOM-based canvas in
components/infinite-canvas.tsx (handleWheel, onTransformEnd, the resize
branch of handleMouseMove, pinch zoom), and components/canvas-utils.ts
(snapToGrid, class HistoryStack).

JS numbers are modelled as rationals, JS objects as Lean structures, and
Partial property bags as structures of Option fields.  JS % (remainder
with the sign of the dividend) and Math.round (half towards plus
infinity) are modelled exactly.
-/

namespace Loveads

/-- The discriminant of a canvas object (type ObjectType in the source). -/
inductive ObjectType
  | image
  | text
  | rectangle
  | circle
deriving DecidableEq, Repr

/-- A canvas object: the common fields of CanvasObject together with the
optional kind-specific payload fields of the variants CanvasImage,
CanvasText, CanvasRectangle, CanvasCircle.  The aspect field models the
source's intrinsic width/height quotient field of CanvasImage. -/
structure CanvasObject where
  id : String
  type : ObjectType
  x : ℚ
  y : ℚ
  width : ℚ
  height : ℚ
  rotation : Option ℚ := none
  selected : Option Bool := none
  zIndex : Int := 0
  fill : Option String := none
  stroke : Option String := none
  strokeWidth : Option ℚ := none
  url : Option String := none
  aspect : Option ℚ := none
  text : Option String := none
  fontSize : Option ℚ := none
  fontFamily : Option String := none
  fontStyle : Option String := none
  align : Option String := none
  cornerRadius : Option ℚ := none
deriving DecidableEq, Repr

/-- UpdateObjectProps: a Partial of the common CanvasObject properties,
without id and type. -/
structure UpdateProps where
  x : Option ℚ := none
  y : Option ℚ := none
  width : Option ℚ := none
  height : Option ℚ := none
  rotation : Option ℚ := none
  selected : Option Bool := none
  zIndex : Option Int := none
  fill : Option String := none
  stroke : Option String := none
  strokeWidth : Option ℚ := none
deriving DecidableEq, Repr

/-- safeUpdateObject: spread the present keys of the update over the
object, keeping id, type and the kind-specific payload unchanged. -/
def safeUpdateObject (o : CanvasObject) (p : UpdateProps) : CanvasObject :=
  { o with
    x := p.x.getD o.x
    y := p.y.getD o.y
    width := p.width.getD o.width
    height := p.height.getD o.height
    rotation := match p.rotation with | some r => some r | none => o.rotation
    selected := match p.selected with | some b => some b | none => o.selected
    zIndex := p.zIndex.getD o.zIndex
    fill := match p.fill with | some c => some c | none => o.fill
    stroke := match p.stroke with | some c => some c | none => o.stroke
    strokeWidth := match p.strokeWidth with | some w => some w | none => o.strokeWidth }

/-- ActionType: the tagged union of history actions. -/
inductive Action
  | add (object : CanvasObject)
  | remove (objectId : String)
  | update (objectId : String) (prevProps newProps : UpdateProps)
  | reorder (objectIds : List String)
  | addBatch (objects : List CanvasObject)
deriving DecidableEq, Repr

/-- Index of the last occurrence of an id in a list, counting from n
for the head.  Models the id-to-index Map built in the reorder case,
where a later Map.set for the same id overwrites an earlier one. -/
def lastIdxOfAux : List String → String → Nat → Option Nat
  | [], _, _ => none
  | a :: rest, i, n =>
      match lastIdxOfAux rest i (n + 1) with
      | some m => some m
      | none => if a = i then some n else none

/-- The sort key used by the reorder case: the index of the id in the
new order, or the length of the order list (standing in for Infinity)
when the id is absent. -/
def orderKey (ids : List String) (i : String) : Nat :=
  (lastIdxOfAux ids i 0).getD ids.length

/-- Stable insertion of an object into an already key-sorted list: the
object goes after every element with a key less than or equal to its
own, which matches the stability of Array.prototype.sort. -/
def insertStable (key : CanvasObject → Nat) (o : CanvasObject) : List CanvasObject → List CanvasObject
  | [] => [o]
  | b :: rest => if key b ≤ key o then b :: insertStable key o rest else o :: b :: rest

/-- The reorder case: stably sort the objects by their position in the
new id order, absent ids last in their original relative order. -/
def reorderObjects (ids : List String) (objs : List CanvasObject) : List CanvasObject :=
  objs.foldl (fun acc o => insertStable (fun b => orderKey ids b.id) o acc) []

/-- The component state carried by the canvas: the object list, the
selected ids, the action history and the history index (initially -1). -/
structure CanvasState where
  objects : List CanvasObject
  selectedIds : List String
  history : List Action
  historyIndex : Int
deriving DecidableEq, Repr

/-- history.slice(0, historyIndex + 1): the applied prefix of the
history. -/
def appliedHistory (s : CanvasState) : List Action :=
  s.history.take (s.historyIndex + 1).toNat

/-- executeAction: truncate the history after the current index, append
the action, apply its forward effect, and point the index at the new
last entry. -/
def executeAction (s : CanvasState) (a : Action) : CanvasState :=
  let newHistory := appliedHistory s ++ [a]
  let s1 : CanvasState :=
    match a with
    | .add o => { s with objects := s.objects ++ [o] }
    | .remove oid =>
        { s with
          objects := s.objects.filter (fun b => b.id != oid)
          selectedIds := s.selectedIds.filter (fun i => i != oid) }
    | .update oid _ newProps =>
        { s with
          objects := s.objects.map (fun b => if b.id = oid then safeUpdateObject b newProps else b) }
    | .reorder ids => { s with objects := reorderObjects ids s.objects }
    | .addBatch os => { s with objects := s.objects ++ os }
  { s1 with history := newHistory, historyIndex := (newHistory.length : Int) - 1 }

/-- The newProps of an action when it is an update of the given object
id, and none otherwise. -/
def newPropsOfUpdateFor (oid : String) : Action → Option UpdateProps
  | .update i _ newProps => if i = oid then some newProps else none
  | _ => none

/-- First index of an add action carrying the given object id, together
with the added object (the historyForRestoration.find of the source). -/
def findFirstAddIdx : List Action → String → Option (Nat × CanvasObject)
  | [], _ => none
  | .add o :: rest, oid =>
      if o.id = oid then some (0, o)
      else (findFirstAddIdx rest oid).map (fun p => (p.1 + 1, p.2))
  | _ :: rest, oid => (findFirstAddIdx rest oid).map (fun p => (p.1 + 1, p.2))

/-- The newProps of the update actions for the given id situated at a
position strictly after ai, scanning the list with n as the position of
its head (the relevantUpdateActions filter of the source). -/
def updatesAfterIdxAux (oid : String) (ai : Nat) : Nat → List Action → List UpdateProps
  | _, [] => []
  | n, a :: rest =>
      let tail := updatesAfterIdxAux oid ai (n + 1) rest
      if ai < n then
        match newPropsOfUpdateFor oid a with
        | some np => np :: tail
        | none => tail
      else tail

/-- undo: revert the action at the history index.  The remove case
reconstructs the object by replaying the recorded updates onto the
payload of the first matching add action and, as in the source, falls
through into the update case with an absent prevProps bag (spreading
undefined, a no-op).  The reorder case only moves the index. -/
def undo (s : CanvasState) : CanvasState :=
  if 0 ≤ s.historyIndex then
    match s.history.get? s.historyIndex.toNat with
    | none => s
    | some (.add o) =>
        { s with
          objects := s.objects.filter (fun b => b.id != o.id)
          selectedIds := s.selectedIds.filter (fun i => i != o.id)
          historyIndex := s.historyIndex - 1 }
    | some (.remove oid) =>
        let histRestore := s.history.take (s.historyIndex.toNat + 1)
        let objs1 :=
          match findFirstAddIdx histRestore oid with
          | some (ai, initObj) =>
              let props := updatesAfterIdxAux oid ai 0 (s.history.take s.historyIndex.toNat)
              s.objects ++ [props.foldl safeUpdateObject initObj]
          | none => s.objects
        let objs2 := objs1.map (fun b => if b.id = oid then safeUpdateObject b {} else b)
        { s with objects := objs2, historyIndex := s.historyIndex - 1 }
    | some (.update oid prevProps _) =>
        { s with
          objects := s.objects.map (fun b => if b.id = oid then safeUpdateObject b prevProps else b)
          historyIndex := s.historyIndex - 1 }
    | some (.reorder _) => { s with historyIndex := s.historyIndex - 1 }
    | some (.addBatch os) =>
        { s with
          objects := s.objects.filter (fun b => !(os.any (fun o => o.id == b.id)))
          selectedIds := s.selectedIds.filter (fun i => !(os.any (fun o => o.id == i)))
          historyIndex := s.historyIndex - 1 }
  else s

/-- redo: re-execute the action after the history index. -/
def redo (s : CanvasState) : CanvasState :=
  if s.historyIndex < (s.history.length : Int) - 1 then
    match s.history.get? (s.historyIndex + 1).toNat with
    | none => s
    | some (.add o) =>
        { s with objects := s.objects ++ [o], historyIndex := s.historyIndex + 1 }
    | some (.remove oid) =>
        { s with
          objects := s.objects.filter (fun b => b.id != oid)
          selectedIds := s.selectedIds.filter (fun i => i != oid)
          historyIndex := s.historyIndex + 1 }
    | some (.update oid _ newProps) =>
        { s with
          objects := s.objects.map (fun b => if b.id = oid then safeUpdateObject b newProps else b)
          historyIndex := s.historyIndex + 1 }
    | some (.reorder ids) =>
        { s with objects := reorderObjects ids s.objects, historyIndex := s.historyIndex + 1 }
    | some (.addBatch os) =>
        { s with objects := s.objects ++ os, historyIndex := s.historyIndex + 1 }
  else s

/-- A pasted clipboard item: same data under a fresh id, shifted by
(+20, +20), as built in the paste branch of handleKeyDown. -/
def pasteItem (item : CanvasObject) (nid : String) : CanvasObject :=
  { item with id := nid, x := item.x + 20, y := item.y + 20 }

/-- One executeAction call inside an event handler whose closure
captured the state snap.  The object and selection setters use
functional updates (prev maps), so they compose across calls and read
the working state cur; setHistory and setHistoryIndex receive plain
values computed from the captured history and historyIndex, so each
call overwrites them with a history rebuilt from the snapshot. -/
def executeActionStale (snap cur : CanvasState) (a : Action) : CanvasState :=
  let newHistory := appliedHistory snap ++ [a]
  let cur1 : CanvasState :=
    match a with
    | .add o => { cur with objects := cur.objects ++ [o] }
    | .remove oid =>
        { cur with
          objects := cur.objects.filter (fun b => b.id != oid)
          selectedIds := cur.selectedIds.filter (fun i => i != oid) }
    | .update oid _ newProps =>
        { cur with
          objects := cur.objects.map (fun b => if b.id = oid then safeUpdateObject b newProps else b) }
    | .reorder ids => { cur with objects := reorderObjects ids cur.objects }
    | .addBatch os => { cur with objects := cur.objects ++ os }
  { cur1 with history := newHistory, historyIndex := (newHistory.length : ℤ) - 1 }

/-- The paste branch of handleKeyDown: clipboard.forEach runs one
executeAction per item, each item paired here with the id generated for
it.  All the calls happen inside one keydown, so they share the single
captured snapshot s: the pasted objects all accumulate through the
functional object updates, while the history and index are rebuilt from
s on every call and only the value set by the last call survives. -/
def pasteClipboard (s : CanvasState) (pairs : List (CanvasObject × String)) : CanvasState :=
  pairs.foldl (fun cur p => executeActionStale s cur (.add (pasteItem p.1 p.2))) s

/-- The stage viewport of the Konva canvases: stage position and scale.
A world point w is drawn at screen position stagePos + w * scale. -/
structure Viewport where
  x : ℚ
  y : ℚ
  scale : ℚ
deriving DecidableEq, Repr

/-- Screen to world under the Konva stage transform. -/
def screenToWorld (v : Viewport) (sx sy : ℚ) : ℚ × ℚ :=
  ((sx - v.x) / v.scale, (sy - v.y) / v.scale)

/-- World to screen under the Konva stage transform. -/
def worldToScreen (v : Viewport) (wx wy : ℚ) : ℚ × ℚ :=
  (v.x + wx * v.scale, v.y + wy * v.scale)

def MIN_ZOOM : ℚ := 1/10
def MAX_ZOOM : ℚ := 5
def ZOOM_SPEED : ℚ := 1/20

/-- handleWheel of the history-bearing Konva canvas: clamp the scaled
zoom to the MIN_ZOOM..MAX_ZOOM range and recompute the stage position so
that the pointer keeps its world point. -/
def handleWheel (v : Viewport) (pointerX pointerY deltaY : ℚ) : Viewport :=
  let mx := (pointerX - v.x) / v.scale
  let my := (pointerY - v.y) / v.scale
  let direction : ℚ := if deltaY > 0 then -1 else 1
  let newScale := max MIN_ZOOM (min MAX_ZOOM (v.scale * (1 + direction * ZOOM_SPEED)))
  { x := pointerX - mx * newScale, y := pointerY - my * newScale, scale := newScale }

/-- handleWheel of the react-konva canvas in
components/infinite-canvas.tsx: multiply or divide the scale by the
SCALE_BY factor 1.1 with no clamping, then recompute the stage
position around the pointer. -/
def konva2HandleWheel (v : Viewport) (pointerX pointerY deltaY : ℚ) : Viewport :=
  let mx := (pointerX - v.x) / v.scale
  let my := (pointerY - v.y) / v.scale
  let direction : ℚ := if deltaY > 0 then 1 else -1
  let newScale := if direction > 0 then v.scale * (11/10) else v.scale / (11/10)
  { x := pointerX - mx * newScale, y := pointerY - my * newScale, scale := newScale }

/-- The DOM-based canvas viewport: position and zoom, with the CSS
transform scale(zoom) translate(-x, -y), so a world point w is drawn at
screen position zoom * (w - position). -/
structure DomView where
  x : ℚ
  y : ℚ
  zoom : ℚ
deriving DecidableEq, Repr

/-- World to screen under the DOM canvas transform. -/
def domScreenOfWorld (d : DomView) (wx wy : ℚ) : ℚ × ℚ :=
  (d.zoom * (wx - d.x), d.zoom * (wy - d.y))

/-- The world point under a screen point of the DOM canvas. -/
def domWorldUnder (d : DomView) (mx my : ℚ) : ℚ × ℚ :=
  (d.x + mx / d.zoom, d.y + my / d.zoom)

/-- handleWheel of the DOM-based canvas: zoom step of 0.02 clamped to
0.1..5, position moved by (mouse / zoom) * delta. -/
def domWheelZoom (d : DomView) (deltaY mouseX mouseY : ℚ) : DomView :=
  let delta : ℚ := if deltaY > 0 then -(1/50) else 1/50
  let newZoom := max (1/10) (min 5 (d.zoom + delta))
  { x := d.x - (mouseX / d.zoom) * delta, y := d.y - (mouseY / d.zoom) * delta, zoom := newZoom }

/-- The pinch-zoom value of handleTouchMove of the DOM-based canvas:
distance-driven delta clamped to 0.1..5. -/
def domPinchZoom (zoom distance initialDistance : ℚ) : ℚ :=
  max (1/10) (min 5 (zoom + (distance - initialDistance) / 200))

/-- JS truncation towards zero, the integer part used by the JS
remainder operator. -/
def ratTrunc (q : ℚ) : ℤ := if 0 ≤ q then ⌊q⌋ else ⌈q⌉

/-- The JS remainder a % b: a minus b times the truncated quotient, so
its sign follows the dividend. -/
def jsMod (a b : ℚ) : ℚ := a - b * (ratTrunc (a / b) : ℚ)

/-- snapToGrid of canvas-utils.ts: move the value to the grid line
below when the remainder is under the threshold, to the grid line above
when it is within the threshold of the grid size, and otherwise leave
the value unchanged. -/
def snapToGrid (value gridSize threshold : ℚ) : ℚ :=
  let remainder := jsMod value gridSize
  if remainder < threshold then value - remainder
  else if gridSize - remainder < threshold then value + (gridSize - remainder)
  else value

/-- performGridSnap of the history-bearing Konva canvas: when snapping
is on, round each coordinate to the nearest multiple of GRID_SIZE = 50
with Math.round. -/
def performGridSnap (snapOn : Bool) (point : ℚ × ℚ) : ℚ × ℚ :=
  if snapOn then
    (((round (point.1 / 50) : ℤ) : ℚ) * 50, ((round (point.2 / 50) : ℤ) : ℚ) * 50)
  else point

/-- The node attributes read at the end of a Konva transform gesture. -/
structure TransformAttrs where
  x : ℚ
  y : ℚ
  width : ℚ
  height : ℚ
  rotation : ℚ
deriving DecidableEq, Repr

/-- handleTransformEnd of the history-bearing Konva canvas: snapped
position, width and height clamped from below by 5, rotation kept. -/
def handleTransformEnd (snapOn : Bool) (node : TransformAttrs) (scaleX scaleY : ℚ) : TransformAttrs :=
  let snapped := performGridSnap snapOn (node.x, node.y)
  { x := snapped.1
    y := snapped.2
    width := max 5 (node.width * scaleX)
    height := max 5 (node.height * scaleY)
    rotation := node.rotation }

/-- The corner handle grabbed in the DOM-based canvas. -/
inductive ResizeHandle
  | topLeft
  | topRight
  | bottomLeft
  | bottomRight
deriving DecidableEq, Repr

/-- The resizeStart record of the DOM-based canvas: pointer position and
object size at gesture start. -/
structure ResizeStart where
  x : ℚ
  y : ℚ
  width : ℚ
  height : ℚ
deriving DecidableEq, Repr

/-- The resizing branch of handleMouseMove of the DOM-based canvas:
per-handle axis scale factors, a single uniform factor when shift is
held, sizes clamped from below by 20, and position adjusted for left
and top handles.  Returns (newWidth, newHeight, newX, newY). -/
def resizeStep (handle : ResizeHandle) (shiftKey : Bool) (start : ResizeStart)
    (imgX imgY clientX clientY zoom : ℚ) : ℚ × ℚ × ℚ × ℚ :=
  let dx := (clientX - start.x) / zoom
  let dy := (clientY - start.y) / zoom
  let scaleX0 :=
    match handle with
    | .topLeft => 1 - dx / start.width
    | .topRight => 1 + dx / start.width
    | .bottomLeft => 1 - dx / start.width
    | .bottomRight => 1 + dx / start.width
  let scaleY0 :=
    match handle with
    | .topLeft => 1 - dy / start.height
    | .topRight => 1 - dy / start.height
    | .bottomLeft => 1 + dy / start.height
    | .bottomRight => 1 + dy / start.height
  let scaleX := if shiftKey then (if |scaleX0| > |scaleY0| then scaleX0 else scaleY0) else scaleX0
  let scaleY := if shiftKey then (if |scaleX0| > |scaleY0| then scaleX0 else scaleY0) else scaleY0
  let newWidth := max 20 (start.width * scaleX)
  let newHeight := max 20 (start.height * scaleY)
  let newX :=
    match handle with
    | .topLeft => imgX + (start.width - newWidth)
    | .bottomLeft => imgX + (start.width - newWidth)
    | _ => imgX
  let newY :=
    match handle with
    | .topLeft => imgY + (start.height - newHeight)
    | .topRight => imgY + (start.height - newHeight)
    | _ => imgY
  (newWidth, newHeight, newX, newY)

/-- The class HistoryStack of canvas-utils.ts: an undo stack, a redo
stack and a capacity.  The JSON deep copies of the source are identity
on these immutable values. -/
structure HistoryStack (T : Type) where
  undoStack : List T
  redoStack : List T
  maxSize : Nat
deriving DecidableEq, Repr

/-- The HistoryStack constructor: empty stacks. -/
def HistoryStack.new (T : Type) (maxSize : Nat) : HistoryStack T :=
  { undoStack := [], redoStack := [], maxSize := maxSize }

/-- HistoryStack.push: append the state, clear the redo stack, and
drop the oldest entry when the capacity is exceeded. -/
def HistoryStack.push {T : Type} (hs : HistoryStack T) (state : T) : HistoryStack T :=
  let u1 := hs.undoStack ++ [state]
  { undoStack := if u1.length > hs.maxSize then u1.tail else u1
    redoStack := []
    maxSize := hs.maxSize }

/-- HistoryStack.undo: null when at most one entry is stored, otherwise
save the current state for redo, pop, and return the new top. -/
def HistoryStack.undo {T : Type} (hs : HistoryStack T) (currentState : T) : Option T × HistoryStack T :=
  if hs.undoStack.length ≤ 1 then (none, hs)
  else
    let u2 := hs.undoStack.dropLast
    (u2.getLast?,
     { undoStack := u2, redoStack := hs.redoStack ++ [currentState], maxSize := hs.maxSize })

/-- HistoryStack.redo: null when the redo stack is empty, otherwise move
its top back to the undo stack and return it. -/
def HistoryStack.redo {T : Type} (hs : HistoryStack T) : Option T × HistoryStack T :=
  match hs.redoStack.getLast? with
  | none => (none, hs)
  | some nextState =>
      (some nextState,
       { undoStack := hs.undoStack ++ [nextState]
         redoStack := hs.redoStack.dropLast
         maxSize := hs.maxSize })

/-- HistoryStack.canUndo: strictly more than one stored entry. -/
def HistoryStack.canUndo {T : Type} (hs : HistoryStack T) : Bool :=
  decide (1 < hs.undoStack.length)

/-- HistoryStack.canRedo: a nonempty redo stack. -/
def HistoryStack.canRedo {T : Type} (hs : HistoryStack T) : Bool :=
  decide (0 < hs.redoStack.length)

/-- HistoryStack.clear: empty both stacks. -/
def HistoryStack.clear {T : Type} (hs : HistoryStack T) : HistoryStack T :=
  { undoStack := [], redoStack := [], maxSize := hs.maxSize }

/-- A call against the public surface of a HistoryStack. -/
inductive StackOp (T : Type)
  | push (state : T)
  | undo (currentState : T)
  | redo
  | clear

/-- Run one HistoryStack call, keeping the mutated stack. -/
def applyStackOp {T : Type} (hs : HistoryStack T) : StackOp T → HistoryStack T
  | .push st => hs.push st
  | .undo cur => (hs.undo cur).2
  | .redo => hs.redo.2
  | .clear => hs.clear

/-! Helper lemmas. -/

theorem getLast?_ne_none {α : Type} (l : List α) (h : l ≠ []) : l.getLast? ≠ none := by
  induction l with
  | nil => exact absurd rfl h
  | cons a rest ih =>
      cases rest with
      | nil => simp
      | cons b r2 => simpa [List.getLast?] using ih (by simp)

theorem applyStackOp_maxSize {T : Type} (hs : HistoryStack T) (op : StackOp T) :
    (applyStackOp hs op).maxSize = hs.maxSize := by
  cases op with
  | push st =>
      simp only [applyStackOp, HistoryStack.push]
  | undo cur =>
      simp only [applyStackOp, HistoryStack.undo]
      split <;> rfl
  | redo =>
      simp only [applyStackOp, HistoryStack.redo]
      cases hs.redoStack.getLast? <;> rfl
  | clear => rfl

theorem applyStackOp_sum_le {T : Type} (hs : HistoryStack T) (op : StackOp T)
    (h : hs.undoStack.length + hs.redoStack.length ≤ hs.maxSize) :
    (applyStackOp hs op).undoStack.length + (applyStackOp hs op).redoStack.length
      ≤ (applyStackOp hs op).maxSize := by
  rw [applyStackOp_maxSize]
  cases op with
  | push st =>
      simp only [applyStackOp, HistoryStack.push]
      split <;> simp_all <;> omega
  | undo cur =>
      simp only [applyStackOp, HistoryStack.undo]
      split
      · exact h
      · rename_i hlen
        simp only [List.length_append, List.length_dropLast, List.length_cons, List.length_nil]
        omega
  | redo =>
      simp only [applyStackOp, HistoryStack.redo]
      cases hr : hs.redoStack.getLast? with
      | none => exact h
      | some nxt =>
          have hne : hs.redoStack ≠ [] := by
            intro h0
            rw [h0] at hr
            simp at hr
          have : 1 ≤ hs.redoStack.length := by
            cases hq : hs.redoStack with
            | nil => exact absurd hq hne
            | cons x xs => simp
          simp only [List.length_append, List.length_dropLast, List.length_cons, List.length_nil]
          omega
  | clear =>
      simp [applyStackOp, HistoryStack.clear]

theorem foldl_stackOps_sum_le {T : Type} (ops : List (StackOp T)) :
    ∀ hs : HistoryStack T,
      hs.undoStack.length + hs.redoStack.length ≤ hs.maxSize →
      (ops.foldl applyStackOp hs).undoStack.length + (ops.foldl applyStackOp hs).redoStack.length
        ≤ (ops.foldl applyStackOp hs).maxSize := by
  induction ops with
  | nil => intro hs h; exact h
  | cons op rest ih =>
      intro hs h
      exact ih (applyStackOp hs op) (applyStackOp_sum_le hs op h)

theorem foldl_stackOps_maxSize {T : Type} (ops : List (StackOp T)) :
    ∀ hs : HistoryStack T, (ops.foldl applyStackOp hs).maxSize = hs.maxSize := by
  induction ops with
  | nil => intro hs; rfl
  | cons op rest ih =>
      intro hs
      rw [List.foldl_cons, ih, applyStackOp_maxSize]

/-! Claim theorems: HistoryStack. -/

/-- C9: HistoryStack.undo returns null exactly when the undo stack holds
at most one entry, canUndo is true exactly when it holds strictly more
than one, and after a single push on a fresh stack canUndo is false and
undo returns null. -/
theorem loveads_historyStack_undo_guard (T : Type) (hs : HistoryStack T) (currentState : T)
    (maxSize : Nat) (st : T) :
    ((hs.undo currentState).1 = none ↔ hs.undoStack.length ≤ 1) ∧
    (hs.canUndo = true ↔ 1 < hs.undoStack.length) ∧
    ((HistoryStack.new T maxSize).push st).canUndo = false ∧
    (((HistoryStack.new T maxSize).push st).undo currentState).1 = none := by
  refine ⟨?_, ?_, ?_, ?_⟩
  · unfold HistoryStack.undo
    split
    · rename_i hle
      simpa using hle
    · rename_i hgt
      push_neg at hgt
      simp only []
      constructor
      · intro hnone
        have hne : hs.undoStack.dropLast ≠ [] := by
          have : hs.undoStack.dropLast.length = hs.undoStack.length - 1 := by
            simp [List.length_dropLast]
          intro h0
          rw [h0] at this
          simp at this
          omega
        exact absurd hnone (getLast?_ne_none _ hne)
      · intro hle
        omega
  · simp [HistoryStack.canUndo]
  · unfold HistoryStack.push HistoryStack.new HistoryStack.canUndo
    simp only [List.nil_append, List.length_cons, List.length_nil]
    split <;> simp
  · unfold HistoryStack.push HistoryStack.new HistoryStack.undo
    simp only [List.nil_append, List.length_cons, List.length_nil]
    split
    · simp
    · simp

/-- C10: the undo stack never exceeds the capacity over any sequence of
push, undo, redo and clear calls from a fresh stack, and a push on a
full stack drops the oldest stored state. -/
theorem loveads_historyStack_capacity (T : Type) (maxSize : Nat) (ops : List (StackOp T))
    (hs : HistoryStack T) (st : T)
    (hfull : hs.undoStack.length = hs.maxSize) (hpos : 1 ≤ hs.maxSize) :
    (ops.foldl applyStackOp (HistoryStack.new T maxSize)).undoStack.length ≤ maxSize ∧
    (hs.push st).undoStack = hs.undoStack.drop 1 ++ [st] := by
  constructor
  · have hsum := foldl_stackOps_sum_le ops (HistoryStack.new T maxSize) (by simp [HistoryStack.new])
    have hmax := foldl_stackOps_maxSize ops (HistoryStack.new T maxSize)
    rw [hmax] at hsum
    simpa [HistoryStack.new] using le_trans (Nat.le_add_right _ _) hsum
  · have hcond : (hs.undoStack ++ [st]).length > hs.maxSize := by
      simp [hfull]
    show (if (hs.undoStack ++ [st]).length > hs.maxSize then (hs.undoStack ++ [st]).tail
        else hs.undoStack ++ [st]) = List.drop 1 hs.undoStack ++ [st]
    rw [if_pos hcond]
    cases hu : hs.undoStack with
    | nil =>
        rw [hu] at hfull
        simp at hfull
        omega
    | cons a rest => simp

/-- Witness for C10 at a stack of capacity 2: three pushes stay within
the capacity, and a push on the full stack [5, 6] drops the 5. -/
theorem loveads_historyStack_capacity_witness :
    (([StackOp.push 1, StackOp.push 2, StackOp.push 3] :
        List (StackOp Nat)).foldl applyStackOp (HistoryStack.new Nat 2)).undoStack.length ≤ 2 ∧
    ((⟨[5, 6], [], 2⟩ : HistoryStack Nat).push 7).undoStack = [5, 6].drop 1 ++ [7] :=
  loveads_historyStack_capacity Nat 2 [StackOp.push 1, StackOp.push 2, StackOp.push 3]
    ⟨[5, 6], [], 2⟩ 7 rfl (by norm_num)

/-! Claim theorems: resize clamping. -/

/-- C6: after any resize commit the width and height are at least the
minimum size.  The Konva handleTransformEnd clamps both sides by 5 for
any scale factors; the DOM resizing step clamps both sides by 20 for any
handle and pointer delta, with or without the shift uniform-scale
modifier, whenever the gesture starts from a positive size and a nonzero
zoom (the reachable configurations). -/
theorem loveads_resize_min_size (snapOn : Bool) (node : TransformAttrs) (scaleX scaleY : ℚ)
    (handle : ResizeHandle) (shiftKey : Bool) (start : ResizeStart)
    (imgX imgY clientX clientY zoom : ℚ)
    (hw : 0 < start.width) (hh : 0 < start.height) (hz : zoom ≠ 0) :
    5 ≤ (handleTransformEnd snapOn node scaleX scaleY).width ∧
    5 ≤ (handleTransformEnd snapOn node scaleX scaleY).height ∧
    20 ≤ (resizeStep handle shiftKey start imgX imgY clientX clientY zoom).1 ∧
    20 ≤ (resizeStep handle shiftKey start imgX imgY clientX clientY zoom).2.1 := by
  refine ⟨le_max_left _ _, le_max_left _ _, ?_, ?_⟩ <;>
    simp only [resizeStep] <;> exact le_max_left _ _

/-- Witness for C6: a bottom-right drag on a 30 by 30 object at zoom 1
keeps both committed sides at or above the minimum. -/
theorem loveads_resize_min_size_witness :
    (0 : ℚ) < (⟨0, 0, 30, 30⟩ : ResizeStart).width ∧
    (0 : ℚ) < (⟨0, 0, 30, 30⟩ : ResizeStart).height ∧
    (1 : ℚ) ≠ 0 ∧
    5 ≤ (handleTransformEnd false ⟨0, 0, 10, 10, 0⟩ (-2) (1/2)).width ∧
    5 ≤ (handleTransformEnd false ⟨0, 0, 10, 10, 0⟩ (-2) (1/2)).height ∧
    20 ≤ (resizeStep .bottomRight false ⟨0, 0, 30, 30⟩ 0 0 (-100) (-100) 1).1 ∧
    20 ≤ (resizeStep .bottomRight false ⟨0, 0, 30, 30⟩ 0 0 (-100) (-100) 1).2.1 := by
  refine ⟨by norm_num, by norm_num, by norm_num, ?_⟩
  exact loveads_resize_min_size false ⟨0, 0, 10, 10, 0⟩ (-2) (1/2) .bottomRight false
    ⟨0, 0, 30, 30⟩ 0 0 (-100) (-100) 1 (by norm_num) (by norm_num) (by norm_num)

/-! Claim theorems: zoom clamping. -/

theorem handleWheel_scale_in_range (v : Viewport) (px py dy : ℚ) :
    MIN_ZOOM ≤ (handleWheel v px py dy).scale ∧ (handleWheel v px py dy).scale ≤ MAX_ZOOM := by
  unfold handleWheel
  constructor
  · exact le_max_left _ _
  · exact max_le (by norm_num [MIN_ZOOM, MAX_ZOOM]) (min_le_left _ _)

theorem foldl_handleWheel_scale_in_range (steps : List (ℚ × ℚ × ℚ)) :
    ∀ v0 : Viewport, MIN_ZOOM ≤ v0.scale → v0.scale ≤ MAX_ZOOM →
      MIN_ZOOM ≤ (steps.foldl (fun w p => handleWheel w p.1 p.2.1 p.2.2) v0).scale ∧
      (steps.foldl (fun w p => handleWheel w p.1 p.2.1 p.2.2) v0).scale ≤ MAX_ZOOM := by
  induction steps with
  | nil => intro v0 h1 h2; exact ⟨h1, h2⟩
  | cons p rest ih =>
      intro v0 h1 h2
      have hstep := handleWheel_scale_in_range v0 p.1 p.2.1 p.2.2
      exact ih _ hstep.1 hstep.2

/-- C5 as amended: the zoom stays inside [MIN_ZOOM, MAX_ZOOM] = [0.1, 5]
for the history-bearing Konva canvas wheel zoom (single steps and any
sequence of steps from an in-range start) and for the DOM canvas wheel
and pinch zoom, all of which clamp.  The react-konva canvas of
components/infinite-canvas.tsx applies no clamp; see the
counterexample. -/
theorem loveads_zoom_clamped_in_range (v : Viewport) (pointerX pointerY deltaY : ℚ)
    (d : DomView) (mouseX mouseY zoom distance initialDistance : ℚ)
    (steps : List (ℚ × ℚ × ℚ)) (v0 : Viewport)
    (h1 : MIN_ZOOM ≤ v0.scale) (h2 : v0.scale ≤ MAX_ZOOM) :
    (MIN_ZOOM ≤ (handleWheel v pointerX pointerY deltaY).scale ∧
      (handleWheel v pointerX pointerY deltaY).scale ≤ MAX_ZOOM) ∧
    (1/10 ≤ (domWheelZoom d deltaY mouseX mouseY).zoom ∧
      (domWheelZoom d deltaY mouseX mouseY).zoom ≤ 5) ∧
    (1/10 ≤ domPinchZoom zoom distance initialDistance ∧
      domPinchZoom zoom distance initialDistance ≤ 5) ∧
    (MIN_ZOOM ≤ (steps.foldl (fun w p => handleWheel w p.1 p.2.1 p.2.2) v0).scale ∧
      (steps.foldl (fun w p => handleWheel w p.1 p.2.1 p.2.2) v0).scale ≤ MAX_ZOOM) := by
  refine ⟨handleWheel_scale_in_range v pointerX pointerY deltaY, ?_, ?_,
    foldl_handleWheel_scale_in_range steps v0 h1 h2⟩
  · unfold domWheelZoom
    exact ⟨le_max_left _ _, max_le (by norm_num) (min_le_left _ _)⟩
  · unfold domPinchZoom
    exact ⟨le_max_left _ _, max_le (by norm_num) (min_le_left _ _)⟩

/-- Witness for C5: from zoom 1, a concrete wheel step, pinch step and
two-step wheel sequence all land inside [0.1, 5]. -/
theorem loveads_zoom_clamped_in_range_witness :
    MIN_ZOOM ≤ (⟨0, 0, 1⟩ : Viewport).scale ∧ (⟨0, 0, 1⟩ : Viewport).scale ≤ MAX_ZOOM ∧
    (MIN_ZOOM ≤ (handleWheel ⟨0, 0, 1⟩ 400 300 (-1)).scale ∧
      (handleWheel ⟨0, 0, 1⟩ 400 300 (-1)).scale ≤ MAX_ZOOM) ∧
    (1/10 ≤ (domWheelZoom ⟨0, 0, 1⟩ (-1) 400 300).zoom ∧
      (domWheelZoom ⟨0, 0, 1⟩ (-1) 400 300).zoom ≤ 5) ∧
    (1/10 ≤ domPinchZoom 1 300 100 ∧ domPinchZoom 1 300 100 ≤ 5) ∧
    (MIN_ZOOM ≤ (([(400, 300, -1), (400, 300, 1)] :
        List (ℚ × ℚ × ℚ)).foldl (fun w p => handleWheel w p.1 p.2.1 p.2.2) ⟨0, 0, 1⟩).scale ∧
      (([(400, 300, -1), (400, 300, 1)] :
        List (ℚ × ℚ × ℚ)).foldl (fun w p => handleWheel w p.1 p.2.1 p.2.2) ⟨0, 0, 1⟩).scale ≤ MAX_ZOOM) := by
  have h := loveads_zoom_clamped_in_range ⟨0, 0, 1⟩ 400 300 (-1) ⟨0, 0, 1⟩ 400 300 1 300 100
    [(400, 300, -1), (400, 300, 1)] ⟨0, 0, 1⟩
    (by norm_num [MIN_ZOOM]) (by norm_num [MAX_ZOOM])
  exact ⟨by norm_num [MIN_ZOOM], by norm_num [MAX_ZOOM], h.1, h.2.1, h.2.2.1, h.2.2.2⟩

/-- Counterexample for C5: the react-konva canvas wheel handler, starting
from the in-range zoom 5, produces zoom 5.5, outside [0.1, 5]. -/
theorem loveads_konva2_wheel_unclamped_ctrex :
    (konva2HandleWheel ⟨0, 0, 5⟩ 0 0 1).scale = 11/2 ∧
    ¬ ((konva2HandleWheel ⟨0, 0, 5⟩ 0 0 1).scale ≤ MAX_ZOOM) := by
  norm_num [konva2HandleWheel, MAX_ZOOM]

/-! Claim theorems: cursor-anchored wheel zoom. -/

/-- C4 as amended: in both Konva canvases a wheel-zoom step sets the new
pan to cursor minus world-under-cursor times the new zoom, so the world
point that was under the cursor maps back to the same screen point; the
DOM canvas uses a different pan update that breaks this property (see
the counterexample). -/
theorem loveads_konva_wheel_anchors_cursor (v : Viewport) (pointerX pointerY deltaY : ℚ)
    (hs : v.scale ≠ 0) :
    worldToScreen v (screenToWorld v pointerX pointerY).1 (screenToWorld v pointerX pointerY).2
      = (pointerX, pointerY) ∧
    (handleWheel v pointerX pointerY deltaY).x
      = pointerX - (screenToWorld v pointerX pointerY).1 * (handleWheel v pointerX pointerY deltaY).scale ∧
    (handleWheel v pointerX pointerY deltaY).y
      = pointerY - (screenToWorld v pointerX pointerY).2 * (handleWheel v pointerX pointerY deltaY).scale ∧
    worldToScreen (handleWheel v pointerX pointerY deltaY)
      (screenToWorld v pointerX pointerY).1 (screenToWorld v pointerX pointerY).2
      = (pointerX, pointerY) ∧
    worldToScreen (konva2HandleWheel v pointerX pointerY deltaY)
      (screenToWorld v pointerX pointerY).1 (screenToWorld v pointerX pointerY).2
      = (pointerX, pointerY) := by
  unfold worldToScreen screenToWorld handleWheel konva2HandleWheel
  refine ⟨?_, by ring, by ring, ?_, ?_⟩
  · simp only [Prod.mk.injEq]
    constructor <;> field_simp
  · simp only [Prod.mk.injEq]
    constructor <;> ring
  · simp only [Prod.mk.injEq]
    constructor <;> ring

/-- Witness for C4 at the zoom scenario of the specification: at scale 2
with pan (200, 100), screen point (400, 300) lies over world point
(100, 100), and after a wheel step anchored there that world point is
still drawn at (400, 300). -/
theorem loveads_konva_wheel_anchors_cursor_witness :
    screenToWorld ⟨200, 100, 2⟩ 400 300 = (100, 100) ∧
    worldToScreen ⟨200, 100, 2⟩
        (screenToWorld ⟨200, 100, 2⟩ 400 300).1 (screenToWorld ⟨200, 100, 2⟩ 400 300).2
      = (400, 300) ∧
    worldToScreen (handleWheel ⟨200, 100, 2⟩ 400 300 (-1))
        (screenToWorld ⟨200, 100, 2⟩ 400 300).1 (screenToWorld ⟨200, 100, 2⟩ 400 300).2
      = (400, 300) := by
  have h := loveads_konva_wheel_anchors_cursor ⟨200, 100, 2⟩ 400 300 (-1) (by norm_num)
  exact ⟨by norm_num [screenToWorld], h.1, h.2.2.2.1⟩

/-- Counterexample for C4: in the DOM canvas, at zoom 1 with pan (0, 0),
the world point (400, 300) sits under screen point (400, 300), yet after
a zoom-in wheel step anchored there it is no longer drawn at
(400, 300). -/
theorem loveads_dom_wheel_anchor_ctrex :
    domWorldUnder ⟨0, 0, 1⟩ 400 300 = (400, 300) ∧
    domScreenOfWorld ⟨0, 0, 1⟩ 400 300 = (400, 300) ∧
    domScreenOfWorld (domWheelZoom ⟨0, 0, 1⟩ (-1) 400 300) 400 300 ≠ (400, 300) := by
  norm_num [domWorldUnder, domScreenOfWorld, domWheelZoom]

/-! Claim theorems: grid snapping. -/

theorem ratTrunc_intCast (k : ℤ) : ratTrunc (k : ℚ) = k := by
  unfold ratTrunc
  split
  · exact Int.floor_intCast k
  · exact Int.ceil_intCast k

theorem jsMod_mul_int (g : ℚ) (k : ℤ) (hg : g ≠ 0) : jsMod (g * (k : ℚ)) g = 0 := by
  unfold jsMod
  rw [mul_comm g (k : ℚ), mul_div_assoc, div_self hg, mul_one, ratTrunc_intCast]
  ring

theorem snapToGrid_lands (v g t : ℚ) :
    (∃ m : ℤ, snapToGrid v g t = g * (m : ℚ)) ∨ snapToGrid v g t = v := by
  by_cases h1 : jsMod v g < t
  · refine Or.inl ⟨ratTrunc (v / g), ?_⟩
    simp only [snapToGrid]
    rw [if_pos h1]
    unfold jsMod
    ring
  · by_cases h2 : g - jsMod v g < t
    · refine Or.inl ⟨ratTrunc (v / g) + 1, ?_⟩
      simp only [snapToGrid]
      rw [if_neg h1, if_pos h2]
      unfold jsMod
      push_cast
      ring
    · refine Or.inr ?_
      simp only [snapToGrid]
      rw [if_neg h1, if_neg h2]

theorem snapToGrid_of_multiple (g t : ℚ) (m : ℤ) (hg : g ≠ 0) (ht : 0 < t) :
    snapToGrid (g * (m : ℚ)) g t = g * (m : ℚ) := by
  simp only [snapToGrid, jsMod_mul_int g m hg]
  rw [if_pos ht, sub_zero]

theorem round_mul_nearest (x : ℚ) (k : ℤ) :
    |((round (x / 50) : ℤ) : ℚ) * 50 - x| ≤ |(k : ℚ) * 50 - x| := by
  have h50 : (50 : ℚ) ≠ 0 := by norm_num
  have hx : (x / 50) * 50 = x := div_mul_cancel₀ x h50
  have habs : ∀ a : ℚ, |a| * 50 = |a * 50| := by
    intro a
    rw [abs_mul]
    norm_num
  set u := x / 50 with hu
  have hround : |u - (round u : ℚ)| ≤ 1 / 2 := abs_sub_round u
  calc |((round u : ℤ) : ℚ) * 50 - x|
      = |((round u : ℚ) - u) * 50| := by rw [← hx]; congr 1; ring
    _ = |(round u : ℚ) - u| * 50 := (habs _).symm
    _ ≤ |(k : ℚ) - u| * 50 := by
        rcases eq_or_ne k (round u) with hk | hk
        · rw [hk]
        · have h1 : (1 : ℚ) ≤ |((k - round u : ℤ) : ℚ)| := by
            rw [← Int.cast_abs]
            exact_mod_cast Int.one_le_abs (sub_ne_zero.mpr hk)
          have h2 : |((k - round u : ℤ) : ℚ)| = |(k : ℚ) - (round u : ℚ)| := by push_cast; rfl
          have h3 : |(k : ℚ) - (round u : ℚ)| ≤ |(k : ℚ) - u| + |u - (round u : ℚ)| :=
            abs_sub_le _ _ _
          have h4 : |(round u : ℚ) - u| ≤ 1 / 2 := by
            rw [abs_sub_comm]
            exact hround
          have h5 : (1 : ℚ) / 2 ≤ |(k : ℚ) - u| := by
            rw [h2] at h1
            linarith
          nlinarith [abs_nonneg ((round u : ℚ) - u), abs_nonneg ((k : ℚ) - u)]
    _ = |((k : ℚ) - u) * 50| := habs _
    _ = |(k : ℚ) * 50 - x| := by rw [← hx]; congr 1; ring

/-- C8 as amended: the canvas-utils snapToGrid only moves a value onto a
neighboring multiple of the grid size when the value lies within the
threshold of it, so its result is a multiple of the grid size or the
unchanged input, and it is idempotent for a positive threshold; the
Konva canvas performGridSnap (with snapping on) rounds each coordinate
to the nearest multiple of GRID_SIZE = 50 and is idempotent. -/
theorem loveads_snap_idempotent_round (v g t px py : ℚ) (k : ℤ)
    (hg : g ≠ 0) (ht : 0 < t) :
    snapToGrid (snapToGrid v g t) g t = snapToGrid v g t ∧
    ((∃ m : ℤ, snapToGrid v g t = g * (m : ℚ)) ∨ snapToGrid v g t = v) ∧
    performGridSnap true (px, py)
      = (((round (px / 50) : ℤ) : ℚ) * 50, ((round (py / 50) : ℤ) : ℚ) * 50) ∧
    |(performGridSnap true (px, py)).1 - px| ≤ |(k : ℚ) * 50 - px| ∧
    |(performGridSnap true (px, py)).2 - py| ≤ |(k : ℚ) * 50 - py| ∧
    performGridSnap true (performGridSnap true (px, py)) = performGridSnap true (px, py) := by
  have hps : performGridSnap true (px, py)
      = (((round (px / 50) : ℤ) : ℚ) * 50, ((round (py / 50) : ℤ) : ℚ) * 50) := by
    simp [performGridSnap]
  refine ⟨?_, snapToGrid_lands v g t, hps, ?_, ?_, ?_⟩
  · rcases snapToGrid_lands v g t with ⟨m, hm⟩ | hv
    · rw [hm]
      exact snapToGrid_of_multiple g t m hg ht
    · rw [hv]
      exact hv
  · rw [hps]
    exact round_mul_nearest px k
  · rw [hps]
    exact round_mul_nearest py k
  · rw [hps]
    have h50 : (50 : ℚ) ≠ 0 := by norm_num
    have e1 : (((round (px / 50) : ℤ) : ℚ) * 50) / 50 = ((round (px / 50) : ℤ) : ℚ) :=
      mul_div_cancel_right₀ _ h50
    have e2 : (((round (py / 50) : ℤ) : ℚ) * 50) / 50 = ((round (py / 50) : ℤ) : ℚ) :=
      mul_div_cancel_right₀ _ h50
    simp [performGridSnap, e1, e2, round_intCast]

/-- Witness for C8 at value 7 on the default 20 grid with threshold 10,
and at the point (30, -30) on the 50 grid with k = 1. -/
theorem loveads_snap_idempotent_round_witness :
    (20 : ℚ) ≠ 0 ∧ (0 : ℚ) < 10 ∧
    snapToGrid (snapToGrid 7 20 10) 20 10 = snapToGrid 7 20 10 ∧
    ((∃ m : ℤ, snapToGrid 7 20 10 = 20 * (m : ℚ)) ∨ snapToGrid 7 20 10 = 7) ∧
    |(performGridSnap true (30, -30)).1 - 30| ≤ |((1 : ℤ) : ℚ) * 50 - 30| ∧
    performGridSnap true (performGridSnap true (30, -30)) = performGridSnap true (30, -30) := by
  have h := loveads_snap_idempotent_round 7 20 10 30 (-30) 1 (by norm_num) (by norm_num)
  exact ⟨by norm_num, by norm_num, h.1, h.2.1, h.2.2.2.1, h.2.2.2.2.2⟩

/-- Counterexample for C8: snapToGrid(50, 100) with the default
threshold 10 returns 50 unchanged, and 50 is not a multiple of 100 (its
remainder is 50), so the result is not the nearest multiple of the grid
size. -/
theorem loveads_snapToGrid_not_nearest_ctrex :
    snapToGrid 50 100 10 = 50 ∧ jsMod (snapToGrid 50 100 10) 100 = 50 ∧ (50 : ℚ) ≠ 0 := by
  norm_num [snapToGrid, jsMod, ratTrunc]

/-! Helper lemmas for the canvas action history. -/

/-- A state whose history index points at the last history entry, as
after any executeAction. -/
def wellIndexed (s : CanvasState) : Prop :=
  s.historyIndex = (s.history.length : ℤ) - 1

theorem executeAction_history (s : CanvasState) (a : Action) :
    (executeAction s a).history = appliedHistory s ++ [a] := by
  cases a <;> rfl

theorem executeAction_historyIndex (s : CanvasState) (a : Action) :
    (executeAction s a).historyIndex = ((appliedHistory s).length : ℤ) := by
  have h : (executeAction s a).historyIndex = ((appliedHistory s ++ [a]).length : ℤ) - 1 := by
    cases a <;> rfl
  rw [h]
  simp

theorem wellIndexed_executeAction (s : CanvasState) (a : Action) :
    wellIndexed (executeAction s a) := by
  unfold wellIndexed
  rw [executeAction_history, executeAction_historyIndex]
  simp

theorem appliedHistory_wellIndexed (s : CanvasState) (h : wellIndexed s) :
    appliedHistory s = s.history := by
  unfold wellIndexed at h
  unfold appliedHistory
  have ht : (s.historyIndex + 1).toNat = s.history.length := by omega
  rw [ht]
  exact List.take_length s.history

theorem executeAction_add_objects (s : CanvasState) (o : CanvasObject) :
    (executeAction s (.add o)).objects = s.objects ++ [o] := rfl

theorem executeAction_add_selectedIds (s : CanvasState) (o : CanvasObject) :
    (executeAction s (.add o)).selectedIds = s.selectedIds := rfl

theorem executeAction_update_objects (s : CanvasState) (oid : String) (pv nw : UpdateProps) :
    (executeAction s (.update oid pv nw)).objects
      = s.objects.map (fun b => if b.id = oid then safeUpdateObject b nw else b) := rfl

theorem executeAction_update_selectedIds (s : CanvasState) (oid : String) (pv nw : UpdateProps) :
    (executeAction s (.update oid pv nw)).selectedIds = s.selectedIds := rfl

theorem executeAction_remove_objects (s : CanvasState) (oid : String) :
    (executeAction s (.remove oid)).objects = s.objects.filter (fun b => b.id != oid) := rfl

theorem safeUpdateObject_id (o : CanvasObject) (p : UpdateProps) :
    (safeUpdateObject o p).id = o.id := rfl

theorem safeUpdateObject_empty (o : CanvasObject) : safeUpdateObject o {} = o := rfl

theorem foldl_safeUpdateObject_id (ps : List UpdateProps) :
    ∀ o : CanvasObject, (ps.foldl safeUpdateObject o).id = o.id := by
  induction ps with
  | nil => intro o; rfl
  | cons p rest ih =>
      intro o
      rw [List.foldl_cons, ih, safeUpdateObject_id]

theorem filter_id_ne (l : List CanvasObject) (oid : String) (h : ∀ o ∈ l, o.id ≠ oid) :
    l.filter (fun b => b.id != oid) = l := by
  induction l with
  | nil => rfl
  | cons o rest ih =>
      have ho : (o.id != oid) = true := bne_iff_ne.mpr (h o (by simp))
      simp only [List.filter_cons, ho, if_true]
      rw [ih (fun b hb => h b (by simp [hb]))]

theorem find?_append_of_none {α : Type} (p : α → Bool) (l1 l2 : List α)
    (h : ∀ a ∈ l1, p a = false) :
    (l1 ++ l2).find? p = l2.find? p := by
  induction l1 with
  | nil => rfl
  | cons a rest ih =>
      have ha : p a = false := h a (by simp)
      simp only [List.cons_append, List.find?_cons, ha]
      exact ih (fun b hb => h b (by simp [hb]))

theorem map_empty_update (l : List CanvasObject) (oid : String) :
    l.map (fun b => if b.id = oid then safeUpdateObject b {} else b) = l := by
  induction l with
  | nil => rfl
  | cons o rest ih => simp [safeUpdateObject_empty, ih]

/-- undo of a state whose last applied action is an add. -/
theorem undo_add_shape (st : CanvasState) (obj : CanvasObject) (pre : List Action)
    (hh : st.history = pre ++ [Action.add obj])
    (hi : st.historyIndex = (pre.length : ℤ)) :
    (undo st).objects = st.objects.filter (fun b => b.id != obj.id) ∧
    (undo st).history = st.history ∧
    (undo st).historyIndex = (pre.length : ℤ) - 1 ∧
    (undo st).selectedIds = st.selectedIds.filter (fun i => i != obj.id) := by
  have h0 : (0 : ℤ) ≤ st.historyIndex := by rw [hi]; positivity
  have htn : st.historyIndex.toNat = pre.length := by omega
  have hget : st.history.get? st.historyIndex.toNat = some (Action.add obj) := by
    rw [htn, hh]
    exact List.get?_concat_length pre _
  unfold undo
  rw [if_pos h0, hget]
  exact ⟨rfl, rfl, by rw [hi], rfl⟩

/-- redo of a state whose history ends in an add that was just undone. -/
theorem redo_add_shape (st : CanvasState) (obj : CanvasObject) (pre : List Action)
    (hh : st.history = pre ++ [Action.add obj])
    (hi : st.historyIndex = (pre.length : ℤ) - 1) :
    (redo st).objects = st.objects ++ [obj] := by
  have hcond : st.historyIndex < (st.history.length : ℤ) - 1 := by
    rw [hi, hh]
    simp only [List.length_append, List.length_cons, List.length_nil]
    push_cast
    omega
  have htn : (st.historyIndex + 1).toNat = pre.length := by omega
  have hget : st.history.get? (st.historyIndex + 1).toNat = some (Action.add obj) := by
    rw [htn, hh]
    exact List.get?_concat_length pre _
  unfold redo
  rw [if_pos hcond, hget]

/-! Concrete example objects and scenes used in counterexamples and
witnesses. -/

def exObjA : CanvasObject :=
  { id := "a", type := .rectangle, x := 0, y := 0, width := 10, height := 10, zIndex := 0 }

def exObjB : CanvasObject :=
  { id := "b", type := .rectangle, x := 5, y := 5, width := 10, height := 10, zIndex := 1 }

def exObjC : CanvasObject :=
  { id := "c", type := .circle, x := 2, y := 3, width := 8, height := 8, zIndex := 2 }

def exScene : CanvasState :=
  { objects := [exObjA, exObjB], selectedIds := [], history := [], historyIndex := -1 }

def exEmpty : CanvasState :=
  { objects := [], selectedIds := [], history := [], historyIndex := -1 }

/-! Claim theorems: undo of reorder. -/

/-- C2 (behaviour of the code at a failing input): in a scene painted
[a, b], executing a reorder to [b, a] and then undoing it leaves the
paint order at [b, a]; the undo of a reorder only moves the history
index back and does not restore the previous order. -/
theorem loveads_undo_reorder_noop_on_scene :
    exScene.objects.map (fun o => o.id) = ["a", "b"] ∧
    (executeAction exScene (.reorder ["b", "a"])).objects.map (fun o => o.id) = ["b", "a"] ∧
    (undo (executeAction exScene (.reorder ["b", "a"]))).objects.map (fun o => o.id) = ["b", "a"] ∧
    (undo (executeAction exScene (.reorder ["b", "a"]))).historyIndex = -1 ∧
    ["b", "a"] ≠ ["a", "b"] :=
  ⟨rfl, rfl, rfl, by decide, by decide⟩

/-! Claim theorems: add then undo then redo. -/

/-- C3: after recording a single add of obj, undo yields a scene whose
id set no longer holds obj.id, and an immediate redo yields a scene
holding the object obj itself, with all its properties. -/
theorem loveads_add_undo_redo_roundtrip (s : CanvasState) (obj : CanvasObject) :
    obj.id ∉ (undo (executeAction s (.add obj))).objects.map (fun o => o.id) ∧
    obj ∈ (redo (undo (executeAction s (.add obj)))).objects := by
  have hh1 : (executeAction s (.add obj)).history = appliedHistory s ++ [Action.add obj] :=
    executeAction_history s _
  have hi1 : (executeAction s (.add obj)).historyIndex = ((appliedHistory s).length : ℤ) :=
    executeAction_historyIndex s _
  have shape := undo_add_shape (executeAction s (.add obj)) obj (appliedHistory s) hh1 hi1
  constructor
  · rw [shape.1]
    simp only [List.mem_map, not_exists, not_and]
    rintro o ho
    rw [List.mem_filter] at ho
    exact bne_iff_ne.mp ho.2
  · have shapeR := redo_add_shape (undo (executeAction s (.add obj))) obj (appliedHistory s)
      (by rw [shape.2.1, hh1]) shape.2.2.1
    rw [shapeR]
    exact List.mem_append_right _ (by simp)

/-- Witness for C3: adding the concrete circle c to the concrete scene,
undoing removes the id c, redoing restores the object itself. -/
theorem loveads_add_undo_redo_roundtrip_witness :
    exObjC.id ∉ (undo (executeAction exScene (.add exObjC))).objects.map (fun o => o.id) ∧
    exObjC ∈ (redo (undo (executeAction exScene (.add exObjC)))).objects :=
  loveads_add_undo_redo_roundtrip exScene exObjC

/-! Claim theorems: paste. -/

theorem executeActionStale_add_objects (snap cur : CanvasState) (o : CanvasObject) :
    (executeActionStale snap cur (.add o)).objects = cur.objects ++ [o] := rfl

theorem executeActionStale_add_history (snap cur : CanvasState) (o : CanvasObject) :
    (executeActionStale snap cur (.add o)).history = appliedHistory snap ++ [Action.add o] := rfl

theorem executeActionStale_add_historyIndex (snap cur : CanvasState) (o : CanvasObject) :
    (executeActionStale snap cur (.add o)).historyIndex
      = ((appliedHistory snap).length : ℤ) := by
  show ((appliedHistory snap ++ [Action.add o]).length : ℤ) - 1 = _
  simp

theorem stale_fold_objects (pairs : List (CanvasObject × String)) :
    ∀ snap cur : CanvasState,
      (pairs.foldl (fun c p => executeActionStale snap c (.add (pasteItem p.1 p.2))) cur).objects
        = cur.objects ++ pairs.map (fun p => pasteItem p.1 p.2) := by
  induction pairs with
  | nil => intro snap cur; simp
  | cons p rest ih =>
      intro snap cur
      rw [List.foldl_cons, ih, executeActionStale_add_objects]
      simp

/-- C7 as amended: pasting a clipboard of N items inserts N new objects,
each carrying its freshly generated id and its source position shifted
by (+20, +20); but every executeAction call of the one keydown reads
the same captured history and historyIndex and overwrites the history
with a value rebuilt from that snapshot, so the history ends up with
one single add entry recording only the last pasted item, not one
add_batch and not N add entries; a single undo therefore removes only
that last pasted object and leaves the other N - 1 in the scene, with
no history record of them at all. -/
theorem loveads_paste_single_stale_add (s : CanvasState) (ps : List (CanvasObject × String))
    (a : CanvasObject) (i : String)
    (hi1 : i ∉ s.objects.map (fun o => o.id))
    (hi2 : i ∉ ps.map Prod.snd) :
    (pasteClipboard s (ps ++ [(a, i)])).objects
      = s.objects ++ (ps ++ [(a, i)]).map (fun p => pasteItem p.1 p.2) ∧
    (pasteClipboard s (ps ++ [(a, i)])).history
      = appliedHistory s ++ [Action.add (pasteItem a i)] ∧
    (undo (pasteClipboard s (ps ++ [(a, i)]))).objects
      = s.objects ++ ps.map (fun p => pasteItem p.1 p.2) := by
  have hsplit : pasteClipboard s (ps ++ [(a, i)])
      = executeActionStale s (pasteClipboard s ps) (.add (pasteItem a i)) := by
    unfold pasteClipboard
    rw [List.foldl_append]
    rfl
  have hobjsM : (pasteClipboard s ps).objects
      = s.objects ++ ps.map (fun p => pasteItem p.1 p.2) := stale_fold_objects ps s s
  have hobjs : (pasteClipboard s (ps ++ [(a, i)])).objects
      = s.objects ++ (ps ++ [(a, i)]).map (fun p => pasteItem p.1 p.2) := by
    rw [hsplit, executeActionStale_add_objects, hobjsM]
    simp
  have hhist : (pasteClipboard s (ps ++ [(a, i)])).history
      = appliedHistory s ++ [Action.add (pasteItem a i)] := by
    rw [hsplit, executeActionStale_add_history]
  have hidx : (pasteClipboard s (ps ++ [(a, i)])).historyIndex
      = ((appliedHistory s).length : ℤ) := by
    rw [hsplit, executeActionStale_add_historyIndex]
  refine ⟨hobjs, hhist, ?_⟩
  have shape := undo_add_shape (pasteClipboard s (ps ++ [(a, i)])) (pasteItem a i)
    (appliedHistory s) hhist hidx
  rw [shape.1, hobjs, List.map_append, ← List.append_assoc, List.filter_append]
  have h1 : (s.objects ++ ps.map (fun p => pasteItem p.1 p.2)).filter
      (fun b => b.id != (pasteItem a i).id)
      = s.objects ++ ps.map (fun p => pasteItem p.1 p.2) := by
    apply filter_id_ne
    intro o ho
    rcases List.mem_append.mp ho with hmem | hmem
    · exact fun he => hi1 (List.mem_map.mpr ⟨o, hmem, he⟩)
    · obtain ⟨p, hp, hpe⟩ := List.mem_map.mp hmem
      intro he
      refine hi2 (List.mem_map.mpr ⟨p, hp, ?_⟩)
      rw [← hpe] at he
      exact he
  have h3 : ([(a, i)].map (fun p => pasteItem p.1 p.2)).filter
      (fun b => b.id != (pasteItem a i).id) = [] := by
    simp
  rw [h1, h3, List.append_nil]

/-- Witness for C7: pasting the concrete clipboard of two rectangles
into the empty scene. -/
theorem loveads_paste_single_stale_add_witness :
    ("p2" ∉ exEmpty.objects.map (fun o => o.id)) ∧
    ("p2" ∉ ([(exObjA, "p1")].map Prod.snd)) ∧
    ((pasteClipboard exEmpty ([(exObjA, "p1")] ++ [(exObjB, "p2")])).objects
      = exEmpty.objects ++ ([(exObjA, "p1")] ++ [(exObjB, "p2")]).map (fun p => pasteItem p.1 p.2) ∧
    (pasteClipboard exEmpty ([(exObjA, "p1")] ++ [(exObjB, "p2")])).history
      = appliedHistory exEmpty ++ [Action.add (pasteItem exObjB "p2")] ∧
    (undo (pasteClipboard exEmpty ([(exObjA, "p1")] ++ [(exObjB, "p2")]))).objects
      = exEmpty.objects ++ [(exObjA, "p1")].map (fun p => pasteItem p.1 p.2)) :=
  ⟨by simp [exEmpty], by simp,
    loveads_paste_single_stale_add exEmpty [(exObjA, "p1")] exObjB "p2"
      (by simp [exEmpty]) (by simp)⟩

/-- Counterexample for C7: pasting a two-item clipboard into the empty
scene inserts both offset copies, yet the recorded history is the
single add entry of the second item only (no add_batch and no entry
for the first), and a single undo leaves the first pasted object p1 in
the scene instead of removing both pasted objects. -/
theorem loveads_paste_stale_history_ctrex :
    (pasteClipboard exEmpty [(exObjA, "p1"), (exObjB, "p2")]).objects.map (fun o => o.id)
      = ["p1", "p2"] ∧
    (pasteClipboard exEmpty [(exObjA, "p1"), (exObjB, "p2")]).history
      = [Action.add (pasteItem exObjB "p2")] ∧
    (undo (pasteClipboard exEmpty [(exObjA, "p1"), (exObjB, "p2")])).objects.map (fun o => o.id)
      = ["p1"] ∧
    (["p1"] : List String) ≠ [] :=
  ⟨rfl, rfl, rfl, by decide⟩


/-! Claim theorems: undo of remove. -/

theorem findFirstAddIdx_append (pre : List Action) (obj : CanvasObject) (post : List Action)
    (oid : String) (hobj : obj.id = oid)
    (hpre : ∀ b ∈ pre, ∀ o2 : CanvasObject, b = .add o2 → o2.id ≠ oid) :
    findFirstAddIdx (pre ++ Action.add obj :: post) oid = some (pre.length, obj) := by
  induction pre with
  | nil => simp [findFirstAddIdx, hobj]
  | cons b rest ih =>
      have hr := ih (fun c hc o2 he => hpre c (List.mem_cons_of_mem b hc) o2 he)
      cases b with
      | add o2 =>
          have hne : o2.id ≠ oid := hpre (.add o2) (List.mem_cons_self _ _) o2 rfl
          simp [findFirstAddIdx, hne, hr]
      | remove oid2 => simp [findFirstAddIdx, hr]
      | update oid2 pv nw => simp [findFirstAddIdx, hr]
      | reorder ids2 => simp [findFirstAddIdx, hr]
      | addBatch os2 => simp [findFirstAddIdx, hr]

theorem updatesAfterIdxAux_skip (oid : String) (ai : Nat) (pre : List Action) :
    ∀ (n : Nat) (acts : List Action), n + pre.length ≤ ai + 1 →
      updatesAfterIdxAux oid ai n (pre ++ acts)
        = updatesAfterIdxAux oid ai (n + pre.length) acts := by
  induction pre with
  | nil =>
      intro n acts _
      simp
  | cons b rest ih =>
      intro n acts h
      have hn : ¬ (ai < n) := by
        simp only [List.length_cons] at h
        omega
      show updatesAfterIdxAux oid ai n (b :: (rest ++ acts)) = _
      simp only [updatesAfterIdxAux, if_neg hn]
      rw [ih (n + 1) acts (by simp only [List.length_cons] at h ⊢; omega)]
      simp only [List.length_cons]
      congr 1
      omega

theorem updatesAfterIdxAux_all (oid : String) (ai : Nat) (acts : List Action) :
    ∀ n : Nat, ai < n →
      updatesAfterIdxAux oid ai n acts = acts.filterMap (newPropsOfUpdateFor oid) := by
  induction acts with
  | nil => intro n _; rfl
  | cons b rest ih =>
      intro n h
      show updatesAfterIdxAux oid ai n (b :: rest) = _
      simp only [updatesAfterIdxAux, if_pos h]
      rw [ih (n + 1) (by omega)]
      cases hfb : newPropsOfUpdateFor oid b <;> simp [List.filterMap_cons, hfb]

theorem update_ite_id (r : CanvasObject) (oid : String) (nw : UpdateProps) :
    (if r.id = oid then safeUpdateObject r nw else r).id = r.id := by
  by_cases h : r.id = oid <;> simp [h, safeUpdateObject_id]

/-- Executing a run of recorded update actions keeps the tracked object
at the tail of the list, carrying exactly the fold of the recorded
newProps, while every other object keeps an id different from it. -/
theorem foldl_updates_track (acts : List Action) :
    ∀ (s : CanvasState) (rest : List CanvasObject) (cur : CanvasObject),
      (∀ b ∈ acts, ∃ oid pv nw, b = Action.update oid pv nw) →
      s.objects = rest ++ [cur] →
      (∀ o ∈ rest, o.id ≠ cur.id) →
      wellIndexed s →
      ∃ rest2 : List CanvasObject,
        (acts.foldl executeAction s).objects
          = rest2 ++ [(acts.filterMap (newPropsOfUpdateFor cur.id)).foldl safeUpdateObject cur] ∧
        (∀ o ∈ rest2, o.id ≠ cur.id) ∧
        (acts.foldl executeAction s).history = s.history ++ acts ∧
        wellIndexed (acts.foldl executeAction s) := by
  induction acts with
  | nil =>
      intro s rest cur _ hobj hrest hw
      exact ⟨rest, by simpa using hobj, hrest, by simp, hw⟩
  | cons b acts2 ih =>
      intro s rest cur hacts hobj hrest hw
      obtain ⟨oid, pv, nw, rfl⟩ := hacts b (List.mem_cons_self _ _)
      have hacts2 : ∀ c ∈ acts2, ∃ oid2 pv2 nw2, c = Action.update oid2 pv2 nw2 :=
        fun c hc => hacts c (List.mem_cons_of_mem _ hc)
      have hobj1 : (executeAction s (.update oid pv nw)).objects
          = rest.map (fun r => if r.id = oid then safeUpdateObject r nw else r)
            ++ [if cur.id = oid then safeUpdateObject cur nw else cur] := by
        rw [executeAction_update_objects, hobj]
        simp
      have hrest1 : ∀ o ∈ rest.map (fun r => if r.id = oid then safeUpdateObject r nw else r),
          o.id ≠ (if cur.id = oid then safeUpdateObject cur nw else cur).id := by
        intro o ho
        obtain ⟨r, hr, rfl⟩ := List.mem_map.mp ho
        rw [update_ite_id, update_ite_id]
        exact hrest r hr
      have hhist1 : (executeAction s (.update oid pv nw)).history
          = s.history ++ [Action.update oid pv nw] := by
        rw [executeAction_history, appliedHistory_wellIndexed s hw]
      obtain ⟨rest2, h1, h2, h3, h4⟩ :=
        ih (executeAction s (.update oid pv nw))
          (rest.map (fun r => if r.id = oid then safeUpdateObject r nw else r))
          (if cur.id = oid then safeUpdateObject cur nw else cur)
          hacts2 hobj1 hrest1 (wellIndexed_executeAction s _)
      have key : (acts2.filterMap
            (newPropsOfUpdateFor (if cur.id = oid then safeUpdateObject cur nw else cur).id)).foldl
            safeUpdateObject (if cur.id = oid then safeUpdateObject cur nw else cur)
          = ((Action.update oid pv nw :: acts2).filterMap
              (newPropsOfUpdateFor cur.id)).foldl safeUpdateObject cur := by
        by_cases hc : oid = cur.id
        · have hcond : cur.id = oid := hc.symm
          have hfilter : (Action.update oid pv nw :: acts2).filterMap
              (newPropsOfUpdateFor cur.id) = nw :: acts2.filterMap (newPropsOfUpdateFor cur.id) := by
            simp [List.filterMap_cons, newPropsOfUpdateFor, hc]
          rw [hfilter, List.foldl_cons, if_pos hcond, safeUpdateObject_id]
        · have hcond : ¬ (cur.id = oid) := fun h => hc h.symm
          have hfilter : (Action.update oid pv nw :: acts2).filterMap
              (newPropsOfUpdateFor cur.id) = acts2.filterMap (newPropsOfUpdateFor cur.id) := by
            simp [List.filterMap_cons, newPropsOfUpdateFor, hc]
          rw [hfilter, if_neg hcond]
      refine ⟨rest2, ?_, ?_, ?_, h4⟩
      · show (acts2.foldl executeAction (executeAction s (.update oid pv nw))).objects = _
        rw [h1, key]
      · intro o ho
        have hne := h2 o ho
        rwa [update_ite_id] at hne
      · show (acts2.foldl executeAction (executeAction s (.update oid pv nw))).history = _
        rw [h3, hhist1]
        simp

/-- undo of a state whose last applied action is a remove, with the add
of the removed id sitting behind a prefix free of adds of that id. -/
theorem undo_remove_shape (st : CanvasState) (oid : String) (pre acts2 : List Action)
    (obj : CanvasObject)
    (hh : st.history = (pre ++ Action.add obj :: acts2) ++ [Action.remove oid])
    (hi : st.historyIndex = ((pre ++ Action.add obj :: acts2).length : ℤ))
    (hobjid : obj.id = oid)
    (hpre : ∀ b ∈ pre, ∀ o2 : CanvasObject, b = .add o2 → o2.id ≠ oid) :
    (undo st).objects
      = (st.objects
          ++ [(acts2.filterMap (newPropsOfUpdateFor oid)).foldl safeUpdateObject obj]).map
            (fun b => if b.id = oid then safeUpdateObject b {} else b) := by
  have h0 : (0 : ℤ) ≤ st.historyIndex := by rw [hi]; positivity
  have htn : st.historyIndex.toNat = (pre ++ Action.add obj :: acts2).length := by omega
  have hget : st.history.get? st.historyIndex.toNat = some (Action.remove oid) := by
    rw [htn, hh]
    exact List.get?_concat_length _ _
  have htake1 : st.history.take (st.historyIndex.toNat + 1)
      = (pre ++ Action.add obj :: acts2) ++ [Action.remove oid] := by
    rw [htn, hh]
    have hlen : (pre ++ Action.add obj :: acts2).length + 1
        = ((pre ++ Action.add obj :: acts2) ++ [Action.remove oid]).length := by
      simp
      omega
    rw [hlen]
    exact List.take_length _
  have htake0 : st.history.take st.historyIndex.toNat = pre ++ Action.add obj :: acts2 := by
    rw [htn, hh]
    exact List.take_left _ _
  have hfind : findFirstAddIdx (st.history.take (st.historyIndex.toNat + 1)) oid
      = some (pre.length, obj) := by
    rw [htake1]
    have hassoc : (pre ++ Action.add obj :: acts2) ++ [Action.remove oid]
        = pre ++ Action.add obj :: (acts2 ++ [Action.remove oid]) := by simp
    rw [hassoc]
    exact findFirstAddIdx_append pre obj (acts2 ++ [Action.remove oid]) oid hobjid hpre
  have hupd : updatesAfterIdxAux oid pre.length 0 (st.history.take st.historyIndex.toNat)
      = acts2.filterMap (newPropsOfUpdateFor oid) := by
    rw [htake0]
    have hsplit : pre ++ Action.add obj :: acts2 = (pre ++ [Action.add obj]) ++ acts2 := by simp
    rw [hsplit, updatesAfterIdxAux_skip oid pre.length (pre ++ [Action.add obj]) 0 acts2
      (by simp)]
    exact updatesAfterIdxAux_all oid pre.length acts2 _ (by simp)
  have hred : (undo st).objects
      = ((match findFirstAddIdx (st.history.take (st.historyIndex.toNat + 1)) oid with
          | some (ai, initObj) =>
              st.objects ++ [(updatesAfterIdxAux oid ai 0
                  (st.history.take st.historyIndex.toNat)).foldl safeUpdateObject initObj]
          | none => st.objects) : List CanvasObject).map
            (fun (b : CanvasObject) => if b.id = oid then safeUpdateObject b {} else b) := by
    unfold undo
    rw [if_pos h0, hget]
  rw [hred, hfind]
  show (st.objects ++ [(updatesAfterIdxAux oid pre.length 0
      (st.history.take st.historyIndex.toNat)).foldl safeUpdateObject obj]).map
        (fun (b : CanvasObject) => if b.id = oid then safeUpdateObject b {} else b) = _
  rw [hupd]

/-- C1: when an object enters the scene through a recorded add action,
is then touched only by recorded update actions, and is removed by a
recorded remove action, the object sitting in the scene immediately
before the removal is exactly the fold of the recorded newProps over
the add payload, and undoing the remove re-inserts precisely that
object, with its id and every property equal to its state at the moment
of removal. -/
theorem loveads_undo_remove_restores_object (s : CanvasState) (obj : CanvasObject)
    (acts : List Action)
    (hacts : ∀ b ∈ acts, ∃ oid pv nw, b = Action.update oid pv nw)
    (hids : ∀ o ∈ s.objects, o.id ≠ obj.id)
    (hbase : ∀ b ∈ appliedHistory s, ∀ o2 : CanvasObject, b = .add o2 → o2.id ≠ obj.id) :
    (acts.foldl executeAction (executeAction s (.add obj))).objects.find?
        (fun b => b.id == obj.id)
      = some ((acts.filterMap (newPropsOfUpdateFor obj.id)).foldl safeUpdateObject obj) ∧
    ((acts.filterMap (newPropsOfUpdateFor obj.id)).foldl safeUpdateObject obj)
      ∈ (undo (executeAction (acts.foldl executeAction (executeAction s (.add obj)))
          (.remove obj.id))).objects := by
  obtain ⟨rest2, h1, h2, h3, h4⟩ :=
    foldl_updates_track acts (executeAction s (.add obj)) s.objects obj hacts
      (executeAction_add_objects s obj) hids (wellIndexed_executeAction s _)
  have hfinal_id : ((acts.filterMap (newPropsOfUpdateFor obj.id)).foldl safeUpdateObject obj).id
      = obj.id := foldl_safeUpdateObject_id _ obj
  constructor
  · rw [h1, find?_append_of_none _ rest2 _
      (fun o ho => beq_eq_false_iff_ne.mpr (h2 o ho))]
    have hptrue : (((acts.filterMap (newPropsOfUpdateFor obj.id)).foldl
        safeUpdateObject obj).id == obj.id) = true := by
      rw [hfinal_id]
      exact beq_self_eq_true _
    simp [List.find?, hptrue]
  · have hmid_hist : (acts.foldl executeAction (executeAction s (.add obj))).history
        = appliedHistory s ++ Action.add obj :: acts := by
      rw [h3, executeAction_history]
      simp
    have hrem_hist : (executeAction (acts.foldl executeAction (executeAction s (.add obj)))
        (.remove obj.id)).history
        = (appliedHistory s ++ Action.add obj :: acts) ++ [Action.remove obj.id] := by
      rw [executeAction_history, appliedHistory_wellIndexed _ h4, hmid_hist]
    have hrem_hi : (executeAction (acts.foldl executeAction (executeAction s (.add obj)))
        (.remove obj.id)).historyIndex
        = ((appliedHistory s ++ Action.add obj :: acts).length : ℤ) := by
      rw [executeAction_historyIndex, appliedHistory_wellIndexed _ h4, hmid_hist]
    have hundo := undo_remove_shape
      (executeAction (acts.foldl executeAction (executeAction s (.add obj))) (.remove obj.id))
      obj.id (appliedHistory s) acts obj hrem_hist hrem_hi rfl hbase
    rw [hundo, map_empty_update]
    exact List.mem_append_right _ (by simp)

/-- Witness for C1: add a rectangle to the empty scene, move and widen
it with one recorded update, remove it; undo of the remove re-inserts
the updated rectangle. -/
theorem loveads_undo_remove_restores_object_witness :
    ((([Action.update "a" {} { x := some 7, width := some 40 }] :
          List Action).foldl executeAction (executeAction exEmpty (.add exObjA))).objects.find?
        (fun b => b.id == exObjA.id)
      = some ((([Action.update "a" {} { x := some 7, width := some 40 }] :
          List Action).filterMap (newPropsOfUpdateFor exObjA.id)).foldl safeUpdateObject exObjA)) ∧
    ((([Action.update "a" {} { x := some 7, width := some 40 }] :
          List Action).filterMap (newPropsOfUpdateFor exObjA.id)).foldl safeUpdateObject exObjA)
      ∈ (undo (executeAction (([Action.update "a" {} { x := some 7, width := some 40 }] :
          List Action).foldl executeAction (executeAction exEmpty (.add exObjA)))
          (.remove exObjA.id))).objects :=
  loveads_undo_remove_restores_object exEmpty exObjA
    [Action.update "a" {} { x := some 7, width := some 40 }]
    (by
      intro b hb
      simp only [List.mem_singleton] at hb
      exact ⟨"a", {}, { x := some 7, width := some 40 }, hb⟩)
    (by intro o ho; simp [exEmpty] at ho)
    (by intro b hb; simp [appliedHistory, exEmpty] at hb)

end Loveads
